import Mathlib

/-!
Shallow embedding of `plugins/fnys.py` (signature module `FNSIGN`, thin HTTP
client `FNWEB`, and plugin class `Fnys`), together with theorems settling the
claims about it.

Modelling conventions:
* Python values that can flow through the signature pipeline are modelled by
  the inductive type `PyVal` (None, bool, int, str, list, dict with string
  keys).
* Python dicts are association lists with unique keys; dict construction and
  `{**a, **b}` merging are modelled by `dictSet` / `dictMerge`, which update
  the first occurrence of a key in place and append fresh keys, exactly like
  CPython dicts preserve insertion order.
* `random.random()` is modelled by a rational parameter `r` with `0 ≤ r < 1`;
  `int(time.time() * 1000)` by a natural-number parameter.
* Python exceptions are modelled by `Except PyExc`; a `try/except` block is a
  total match on the `Except` value.
* Strings are hashed through a byte-accurate UTF-8 encoder and a full MD5
  implementation over `Nat` bytes.
-/

/-- Model of the Python runtime values that reach this module:
`None`, `bool`, `int`, `str`, `list`, and `dict` with string keys. -/
inductive PyVal where
  | none : PyVal
  | bool : Bool → PyVal
  | int : Int → PyVal
  | str : String → PyVal
  | list : List PyVal → PyVal
  | dict : List (String × PyVal) → PyVal

/-- Is this value Python `None`? (`v is None`.) -/
def PyVal.isNone : PyVal → Bool
  | .none => true
  | _ => false

/-- Python truthiness of a `PyVal` (`bool(v)`). -/
def pyTruthy : PyVal → Bool
  | .none => false
  | .bool b => b
  | .int n => n ≠ 0
  | .str s => s ≠ ""
  | .list xs => ¬ xs.isEmpty
  | .dict xs => ¬ xs.isEmpty

/-- Model of a Python exception value. -/
inductive PyExc where
  | attributeError : String → PyExc
  | typeError : String → PyExc
  | keyError : String → PyExc
  | requestException : String → PyExc
  | otherError : String → PyExc
deriving DecidableEq

/-- Human-readable message of an exception, used for diagnostics. -/
def PyExc.msg : PyExc → String
  | .attributeError s => s
  | .typeError s => s
  | .keyError s => s
  | .requestException s => s
  | .otherError s => s

/-- `d[k] = v` on a dict modelled as an assoc list: replace the value at the
first occurrence of `k` (keeping its position, as CPython dicts do), or append
`(k, v)` when `k` is fresh. -/
def dictSet {α : Type} : List (String × α) → String → α → List (String × α)
  | [], k, v => [(k, v)]
  | (k', v') :: rest, k, v =>
      if k' = k then (k, v) :: rest else (k', v') :: dictSet rest k v

/-- `{**d, **entries}`: fold the entries of the second dict into the first. -/
def dictMerge {α : Type} (d : List (String × α)) (entries : List (String × α)) :
    List (String × α) :=
  entries.foldl (fun acc kv => dictSet acc kv.1 kv.2) d

/-- Build a dict from a list of key/value assignments, starting empty. -/
def buildDict {α : Type} (entries : List (String × α)) : List (String × α) :=
  dictMerge [] entries

/-- `d.get(k)`: first value stored at key `k`, if any. -/
def dictGet {α : Type} (d : List (String × α)) (k : String) : Option α :=
  d.lookup k

/-- Decimal digit character for `n < 10`. -/
def decDigitChar (n : Nat) : Char :=
  Char.ofNat (48 + n)

/-- Decimal digits of `n`, most significant first, with explicit fuel so the
definition reduces in the kernel.  `decChars (n+1) n` is always fully
evaluated. -/
def decChars : Nat → Nat → List Char
  | 0, _ => []
  | fuel + 1, n =>
      if n < 10 then [decDigitChar n]
      else decChars fuel (n / 10) ++ [decDigitChar (n % 10)]

/-- Decimal representation of a natural number (Python `str` of a
non-negative `int`). -/
def decRepr (n : Nat) : String :=
  ⟨decChars (n + 1) n⟩

/-- Python `str` of an `int`. -/
def pyIntStr (n : Int) : String :=
  if n < 0 then "-" ++ decRepr n.natAbs else decRepr n.toNat

/-- Python `str.zfill(w)` on a string with no sign character: left-pad with
zeros up to width `w`. -/
def zfill (w : Nat) (s : String) : String :=
  if s.length ≥ w then s
  else ⟨List.replicate (w - s.length) '0' ++ s.data⟩

/-- Python `round` on an exact rational: round half to even. -/
def pyRound (q : ℚ) : Int :=
  let f : Int := ⌊q⌋
  let frac : ℚ := q - f
  if frac < 1 / 2 then f
  else if frac > 1 / 2 then f + 1
  else if f % 2 = 0 then f else f + 1

/-- `FNSIGN.get_random_number(min_val, max_val, round_type)`, with the
outcome of `random.random()` made explicit as the rational `r`. -/
def get_random_number (r : ℚ) (minVal maxVal : ℚ) (roundType : String) : Int :=
  let val : ℚ := r * (maxVal - minVal) + minVal
  if roundType = "floor" then ⌊val⌋
  else if roundType = "ceil" then ⌈val⌉
  else pyRound val

/-- The nonce built by `generate_signature`:
`str(FNSIGN.get_random_number(1e5, 1e6)).zfill(6)`. -/
def nonceOf (r : ℚ) : String :=
  zfill 6 (pyIntStr (get_random_number r 100000 1000000 "round"))

/-- Numeric value of the nonce before formatting. -/
def nonceVal (r : ℚ) : Int :=
  get_random_number r 100000 1000000 "round"

/-- Lowercase hexadecimal digit character for `n < 16`. -/
def hexLowerChar (n : Nat) : Char :=
  if n < 10 then Char.ofNat (48 + n) else Char.ofNat (87 + n)

/-- Uppercase hexadecimal digit character for `n < 16` (used by `urllib`
percent-encoding, which formats bytes with `%02X`). -/
def hexUpperChar (n : Nat) : Char :=
  if n < 10 then Char.ofNat (48 + n) else Char.ofNat (55 + n)

/-- UTF-8 encoding of a Unicode code point (Python `str.encode("utf-8")`
acts on valid scalar values only, which is what `Char` guarantees). -/
def utf8EncodeCodepoint (n : Nat) : List Nat :=
  if n < 128 then [n]
  else if n < 2048 then [192 + n / 64, 128 + n % 64]
  else if n < 65536 then [224 + n / 4096, 128 + n / 64 % 64, 128 + n % 64]
  else [240 + n / 262144, 128 + n / 4096 % 64, 128 + n / 64 % 64, 128 + n % 64]

/-- UTF-8 byte sequence of a string. -/
def strBytes (s : String) : List Nat :=
  s.data.flatMap (fun c => utf8EncodeCodepoint c.toNat)

/-- Is `b` a UTF-8 continuation byte (`0x80..0xBF`)? -/
def utf8Cont (b : Nat) : Bool :=
  128 ≤ b && b < 192

/-- The Unicode replacement character U+FFFD. -/
def replChar : Char := Char.ofNat 65533

/-- UTF-8 decoding with `errors="replace"` (the policy of Python
`bytes.decode("utf-8", "replace")`): each maximal invalid subpart is replaced
by one U+FFFD.  Fuel-driven so the definition reduces in the kernel; fuel is
consumed one unit per emitted character while at least one byte is consumed,
so `bytes.length` fuel always suffices. -/
def utf8DecodeReplaceAux : Nat → List Nat → List Char
  | 0, _ => []
  | _, [] => []
  | fuel + 1, b :: rest =>
      if b < 128 then Char.ofNat b :: utf8DecodeReplaceAux fuel rest
      else if b < 194 then replChar :: utf8DecodeReplaceAux fuel rest
      else if b < 224 then
        match rest with
        | b1 :: rest1 =>
            if utf8Cont b1 then
              Char.ofNat ((b - 192) * 64 + (b1 - 128)) :: utf8DecodeReplaceAux fuel rest1
            else replChar :: utf8DecodeReplaceAux fuel rest
        | [] => [replChar]
      else if b < 240 then
        let lo1 : Nat := if b = 224 then 160 else 128
        let hi1 : Nat := if b = 237 then 159 else 191
        match rest with
        | b1 :: rest1 =>
            if lo1 ≤ b1 && b1 ≤ hi1 then
              match rest1 with
              | b2 :: rest2 =>
                  if utf8Cont b2 then
                    Char.ofNat ((b - 224) * 4096 + (b1 - 128) * 64 + (b2 - 128)) ::
                      utf8DecodeReplaceAux fuel rest2
                  else replChar :: utf8DecodeReplaceAux fuel rest1
              | [] => [replChar]
            else replChar :: utf8DecodeReplaceAux fuel rest
        | [] => [replChar]
      else if b < 245 then
        let lo1 : Nat := if b = 240 then 144 else 128
        let hi1 : Nat := if b = 244 then 143 else 191
        match rest with
        | b1 :: rest1 =>
            if lo1 ≤ b1 && b1 ≤ hi1 then
              match rest1 with
              | b2 :: rest2 =>
                  if utf8Cont b2 then
                    match rest2 with
                    | b3 :: rest3 =>
                        if utf8Cont b3 then
                          Char.ofNat ((b - 240) * 262144 + (b1 - 128) * 4096 +
                              (b2 - 128) * 64 + (b3 - 128)) ::
                            utf8DecodeReplaceAux fuel rest3
                        else replChar :: utf8DecodeReplaceAux fuel rest2
                    | [] => [replChar]
                  else replChar :: utf8DecodeReplaceAux fuel rest1
              | [] => [replChar]
            else replChar :: utf8DecodeReplaceAux fuel rest
        | [] => [replChar]
      else replChar :: utf8DecodeReplaceAux fuel rest

/-- UTF-8 decoding with replacement of a byte list. -/
def utf8DecodeReplace (bs : List Nat) : List Char :=
  utf8DecodeReplaceAux bs.length bs

/-- Left-rotate a 32-bit word. -/
def rotl32 (x n : Nat) : Nat :=
  (x * 2 ^ n + x / 2 ^ (32 - n)) % 4294967296

/-- Addition modulo `2^32`. -/
def add32 (a b : Nat) : Nat :=
  (a + b) % 4294967296

/-- Bitwise complement of a 32-bit word. -/
def not32 (x : Nat) : Nat :=
  4294967295 - x % 4294967296

/-- The 64 MD5 sine-derived constants. -/
def md5K : List Nat :=
  [3614090360, 3905402710, 606105819, 3250441966,
   4118548399, 1200080426, 2821735955, 4249261313,
   1770035416, 2336552879, 4294925233, 2304563134,
   1804603682, 4254626195, 2792965006, 1236535329,
   4129170786, 3225465664, 643717713, 3921069994,
   3593408605, 38016083, 3634488961, 3889429448,
   568446438, 3275163606, 4107603335, 1163531501,
   2850285829, 4243563512, 1735328473, 2368359562,
   4294588738, 2272392833, 1839030562, 4259657740,
   2763975236, 1272893353, 4139469664, 3200236656,
   681279174, 3936430074, 3572445317, 76029189,
   3654602809, 3873151461, 530742520, 3299628645,
   4096336452, 1126891415, 2878612391, 4237533241,
   1700485571, 2399980690, 4293915773, 2240044497,
   1873313359, 4264355552, 2734768916, 1309151649,
   4149444226, 3174756917, 718787259, 3951481745]

/-- The 64 MD5 per-round left-rotation amounts. -/
def md5S : List Nat :=
  [7, 12, 17, 22, 7, 12, 17, 22, 7, 12, 17, 22, 7, 12, 17, 22,
   5, 9, 14, 20, 5, 9, 14, 20, 5, 9, 14, 20, 5, 9, 14, 20,
   4, 11, 16, 23, 4, 11, 16, 23, 4, 11, 16, 23, 4, 11, 16, 23,
   6, 10, 15, 21, 6, 10, 15, 21, 6, 10, 15, 21, 6, 10, 15, 21]

/-- Eight little-endian bytes of a (bit-)length value, modulo `2^64`. -/
def le8 (n : Nat) : List Nat :=
  [n % 256, n / 256 % 256, n / 65536 % 256, n / 16777216 % 256,
   n / 4294967296 % 256, n / 1099511627776 % 256,
   n / 281474976710656 % 256, n / 72057594037927936 % 256]

/-- Four little-endian bytes of a 32-bit word. -/
def le4 (n : Nat) : List Nat :=
  [n % 256, n / 256 % 256, n / 65536 % 256, n / 16777216 % 256]

/-- MD5 padding: append `0x80`, zero bytes up to 56 mod 64, then the
64-bit little-endian bit length of the original message. -/
def md5Pad (msg : List Nat) : List Nat :=
  let padLen : Nat := (55 + 64 - msg.length % 64) % 64
  msg ++ [128] ++ List.replicate padLen 0 ++ le8 (8 * msg.length)

/-- Split a byte list into chunks of 64 (fuel-driven). -/
def chunks64 : Nat → List Nat → List (List Nat)
  | 0, _ => []
  | _, [] => []
  | fuel + 1, bs => bs.take 64 :: chunks64 fuel (bs.drop 64)

/-- The sixteen little-endian 32-bit message words of a 64-byte chunk. -/
def md5Words (chunk : List Nat) : List Nat :=
  (List.range 16).map (fun j =>
    chunk.getD (4 * j) 0 + 256 * chunk.getD (4 * j + 1) 0 +
      65536 * chunk.getD (4 * j + 2) 0 + 16777216 * chunk.getD (4 * j + 3) 0)

/-- One MD5 compression round step dispatch: the nonlinear function and the
message index for step `i`. -/
def md5FG (b c d i : Nat) : Nat × Nat :=
  if i < 16 then
    ((b.land c).lor ((not32 b).land d), i)
  else if i < 32 then
    ((d.land b).lor ((not32 d).land c), (5 * i + 1) % 16)
  else if i < 48 then
    ((b.xor c).xor d, (3 * i + 5) % 16)
  else
    (c.xor (b.lor (not32 d)), (7 * i) % 16)

/-- MD5 compression of one 64-byte chunk into the running state. -/
def md5Chunk (st : Nat × Nat × Nat × Nat) (chunk : List Nat) :
    Nat × Nat × Nat × Nat :=
  let M := md5Words chunk
  let res := (List.range 64).foldl
    (fun (s : Nat × Nat × Nat × Nat) (i : Nat) =>
      let (a, b, c, d) := s
      let (f, g) := md5FG b c d i
      let f' := add32 (add32 (add32 f a) (md5K.getD i 0)) (M.getD g 0)
      (d, add32 b (rotl32 f' (md5S.getD i 0)), b, c))
    st
  let (a0, b0, c0, d0) := st
  let (a, b, c, d) := res
  (add32 a0 a, add32 b0 b, add32 c0 c, add32 d0 d)

/-- MD5 digest (16 bytes) of a byte list. -/
def md5 (msg : List Nat) : List Nat :=
  let padded := md5Pad msg
  let st := (chunks64 (padded.length + 1) padded).foldl md5Chunk
    (1732584193, 4023233417, 2562383102, 271733878)
  le4 st.1 ++ le4 st.2.1 ++ le4 st.2.2.1 ++ le4 st.2.2.2

/-- Two lowercase hex characters of one byte. -/
def byteHexLower (b : Nat) : List Char :=
  [hexLowerChar (b / 16 % 16), hexLowerChar (b % 16)]

/-- Lowercase hex string of a byte list. -/
def bytesToHex (bs : List Nat) : String :=
  ⟨bs.flatMap byteHexLower⟩

/-- `hashlib.md5(bs).hexdigest()`. -/
def md5Hex (bs : List Nat) : String :=
  bytesToHex (md5 bs)

/-- ASCII uppercasing of one character (`str.upper`; the method strings this
module compares against are ASCII). -/
def pyUpperChar (c : Char) : Char :=
  if 'a' ≤ c ∧ c ≤ 'z' then Char.ofNat (c.toNat - 32) else c

/-- `str.upper()` on the ASCII range. -/
def pyUpper (s : String) : String :=
  ⟨s.data.map pyUpperChar⟩

/-- `str.replace(pat, new)` on character lists: leftmost, non-overlapping
replacement of every occurrence, fuel-driven (one character is consumed per
step whenever `pat` is nonempty, so `s.length` fuel suffices). -/
def replaceChars : Nat → List Char → List Char → List Char → List Char
  | 0, s, _, _ => s
  | _, [], _, _ => []
  | fuel + 1, c :: rest, pat, new =>
      if pat ≠ [] ∧ pat.isPrefixOf (c :: rest) then
        new ++ replaceChars fuel ((c :: rest).drop pat.length) pat new
      else c :: replaceChars fuel rest pat new

/-- Python `s.replace(pat, new)` for a nonempty pattern. -/
def pyReplace (s pat new : String) : String :=
  ⟨replaceChars s.data.length s.data pat.data new.data⟩

/-- Numeric value of a hexadecimal digit character, if it is one. -/
def hexVal (c : Char) : Option Nat :=
  if '0' ≤ c ∧ c ≤ '9' then some (c.toNat - 48)
  else if 'A' ≤ c ∧ c ≤ 'F' then some (c.toNat - 55)
  else if 'a' ≤ c ∧ c ≤ 'f' then some (c.toNat - 87)
  else none

/-- Maximal leading run of `%XX` escapes: the decoded bytes and the rest of
the input. -/
def pctRun : Nat → List Char → List Nat × List Char
  | 0, s => ([], s)
  | fuel + 1, '%' :: c1 :: c2 :: rest =>
      match hexVal c1, hexVal c2 with
      | some h, some l =>
          let (bs, r) := pctRun fuel rest
          ((16 * h + l) :: bs, r)
      | _, _ => ([], '%' :: c1 :: c2 :: rest)
  | _, s => ([], s)

/-- `urllib.parse.unquote(s, errors="replace")`: literal characters pass
through; each maximal run of `%XX` escapes is decoded as UTF-8 bytes with
replacement; a `%` not followed by two hex digits stays literal.
This never raises in Python, which the model reflects by being total. -/
def unquoteAux : Nat → List Char → List Char
  | 0, _ => []
  | _, [] => []
  | fuel + 1, '%' :: c1 :: c2 :: rest =>
      (match hexVal c1, hexVal c2 with
       | some h, some l =>
           let (bs, r) := pctRun fuel rest
           utf8DecodeReplace ((16 * h + l) :: bs) ++ unquoteAux fuel r
       | _, _ => '%' :: unquoteAux fuel (c1 :: c2 :: rest))
  | fuel + 1, c :: rest => c :: unquoteAux fuel rest

/-- `urllib.parse.unquote` on strings. -/
def pyUnquote (s : String) : String :=
  ⟨unquoteAux s.data.length s.data⟩

/-- Characters `urllib.parse.quote` never encodes (ASCII letters, digits,
`_`, `.`, `-`, `~`; `urlencode` passes `safe=""`). -/
def urlSafeChar (c : Char) : Bool :=
  ('A' ≤ c && c ≤ 'Z') || ('a' ≤ c && c ≤ 'z') || ('0' ≤ c && c ≤ '9') ||
    c = '_' || c = '.' || c = '-' || c = '~'

/-- `%XX` escape of one byte, uppercase hex as `urllib` produces. -/
def percentByte (b : Nat) : List Char :=
  ['%', hexUpperChar (b / 16 % 16), hexUpperChar (b % 16)]

/-- Per-character encoding of `urllib.parse.quote(s, safe="")`. -/
def quoteChar (c : Char) : List Char :=
  if urlSafeChar c then [c]
  else (utf8EncodeCodepoint c.toNat).flatMap percentByte

/-- Per-character encoding of `urllib.parse.quote_plus(s, safe="")`:
like `quote` but a space becomes `+`. -/
def quotePlusChar (c : Char) : List Char :=
  if c = ' ' then ['+'] else quoteChar c

/-- `urllib.parse.quote_plus(s, safe="")`. -/
def quote_plus (s : String) : String :=
  ⟨s.data.flatMap quotePlusChar⟩

/-- Escaping of one character inside a Python `repr` of a string delimited by
the quote character `q`. -/
def strReprEscapeChar (q c : Char) : List Char :=
  if c = '\\' then ['\\', '\\']
  else if c = q then ['\\', q]
  else if c = '\n' then ['\\', 'n']
  else if c = '\r' then ['\\', 'r']
  else if c = '\t' then ['\\', 't']
  else if c.toNat < 32 || c.toNat = 127 then
    ['\\', 'x', hexLowerChar (c.toNat / 16), hexLowerChar (c.toNat % 16)]
  else [c]

/-- Python `repr` of a string: single-quoted, or double-quoted when the
string contains a single quote but no double quote.  (Printable non-ASCII is
kept raw, as Python 3 does.) -/
def strRepr (s : String) : String :=
  let q : Char :=
    if s.data.contains (Char.ofNat 39) && ¬ s.data.contains (Char.ofNat 34)
    then Char.ofNat 34 else Char.ofNat 39
  ⟨q :: s.data.flatMap (strReprEscapeChar q) ++ [q]⟩

/-- Python `repr(v)`.  Containers display their elements with `repr`. -/
def pyRepr : PyVal → String
  | .none => "None"
  | .bool true => "True"
  | .bool false => "False"
  | .int n => pyIntStr n
  | .str s => strRepr s
  | .list xs =>
      "[" ++ String.intercalate ", " (xs.attach.map (fun x => pyRepr x.1)) ++ "]"
  | .dict xs =>
      "\x7b" ++
        String.intercalate ", "
          (xs.attach.map (fun kv => strRepr kv.1.1 ++ ": " ++ pyRepr kv.1.2)) ++
        "\x7d"
decreasing_by
  · have h := List.sizeOf_lt_of_mem x.2
    simp only [PyVal.list.sizeOf_spec]
    omega
  · have h := List.sizeOf_lt_of_mem kv.2
    have h2 : sizeOf kv.1.2 < sizeOf kv.1 := by
      obtain ⟨⟨a, b⟩, hm⟩ := kv
      simp only [Prod.mk.sizeOf_spec]
      omega
    simp only [PyVal.dict.sizeOf_spec]
    omega

/-- Python `str(v)`: identical to `repr` except on strings themselves. -/
def pyStr (v : PyVal) : String :=
  match v with
  | .str s => s
  | _ => pyRepr v

/-- One `(key, value)` entry of `urllib.parse.urlencode(..., doseq=True)`
with `quote_via=quote_plus`: a string value gives one pair; a non-string
value without `len` is stringified; a sequence yields one pair per element;
iterating a dict yields its keys. -/
def urlencodeField (k : String) (v : PyVal) : List String :=
  match v with
  | .str s => [quote_plus k ++ "=" ++ quote_plus s]
  | .list xs => xs.map (fun elt => quote_plus k ++ "=" ++ quote_plus (pyStr elt))
  | .dict xs => xs.map (fun kv => quote_plus k ++ "=" ++ quote_plus kv.1)
  | v => [quote_plus k ++ "=" ++ quote_plus (pyStr v)]

/-- `"&".join(l)`. -/
def joinAmp : List String → String
  | [] => ""
  | [x] => x
  | x :: xs => x ++ "&" ++ joinAmp xs

/-- `urllib.parse.urlencode(q, doseq=True)`. -/
def urlencodeDoseq (q : List (String × PyVal)) : String :=
  joinAmp (q.flatMap (fun kv => urlencodeField kv.1 kv.2))

/-- The key ordering used by `sorted(params.items())`: Python tuple
comparison looks at the (string) key first, and dict keys are unique, so the
key alone decides. -/
def sortParams (p : List (String × PyVal)) : List (String × PyVal) :=
  List.insertionSort (fun a b => a.1 ≤ b.1) p

/-- The sorted entries of `params` that survive the `None` filter of
`FNSIGN.stringify_params` (`is_undefined` and `is_null` both test
`value is None`). -/
def stringifyFiltered (p : List (String × PyVal)) : List (String × PyVal) :=
  (sortParams p).filter (fun kv => ¬ kv.2.isNone)

/-- `FNSIGN.stringify_params`: sort by key, drop `None` values, encode with
`urlencode(..., doseq=True)`, then `replace("+", "%20")`. -/
def stringify_params (p : List (String × PyVal)) : String :=
  pyReplace (urlencodeDoseq (stringifyFiltered p)) "+" "%20"

/-- `s.split(sep)` for a single separator character, Python semantics:
empty pieces are kept and the empty string splits to `[""]`. -/
def splitOnCharAux (sep : Char) : List Char → List Char → List (List Char)
  | [], acc => [acc.reverse]
  | c :: rest, acc =>
      if c = sep then acc.reverse :: splitOnCharAux sep rest []
      else splitOnCharAux sep rest (c :: acc)

/-- Python `qs.split("&")`. -/
def splitAmp (qs : String) : List String :=
  (splitOnCharAux '&' qs.data []).map (fun cs => ⟨cs⟩)

/-- One field of a query string, split on the first `=`
(`name_value.split("=", 1)` with `keep_blank_values=True`): an empty field is
skipped, a field without `=` gets the empty value. -/
def qslField (f : String) : Option (String × String) :=
  if f = "" then none
  else
    let name := f.data.takeWhile (fun c => c ≠ '=')
    match f.data.dropWhile (fun c => c ≠ '=') with
    | [] => some (⟨name⟩, "")
    | _ :: value => some (⟨name⟩, ⟨value⟩)

/-- The decode applied by `parse_qsl` to each name and value:
`unquote(s.replace("+", " "))`. -/
def qslDecode (s : String) : String :=
  pyUnquote (pyReplace s "+" " ")

/-- `urllib.parse.parse_qsl(qs, keep_blank_values=True)`. -/
def parse_qsl (qs : String) : List (String × String) :=
  ((splitAmp qs).filterMap qslField).map
    (fun kv => (qslDecode kv.1, qslDecode kv.2))

/-- `FNSIGN.parse_url`: split the URL at the first `?`; when a nonempty query
string follows, parse it and keep, in a dict, every pair whose decoded value
is neither the literal string `"undefined"` nor `"null"`. -/
def parse_url (url : String) : String × List (String × String) :=
  let path : String := ⟨url.data.takeWhile (fun c => c ≠ '?')⟩
  match url.data.dropWhile (fun c => c ≠ '?') with
  | [] => (path, [])
  | _ :: q =>
      if q.isEmpty then (path, [])
      else
        (path,
         buildDict (((parse_qsl ⟨q⟩).filter
           (fun kv => kv.2 ≠ "undefined" ∧ kv.2 ≠ "null"))))

/-- JSON escaping of one character with `ensure_ascii=False`: only the
quote, the backslash and control characters are escaped. -/
def jsonEscapeChar (c : Char) : List Char :=
  if c = Char.ofNat 34 then ['\\', Char.ofNat 34]
  else if c = '\\' then ['\\', '\\']
  else if c = '\n' then ['\\', 'n']
  else if c = '\t' then ['\\', 't']
  else if c = '\r' then ['\\', 'r']
  else if c.toNat = 8 then ['\\', 'b']
  else if c.toNat = 12 then ['\\', 'f']
  else if c.toNat < 32 then
    ['\\', 'u', '0', '0', hexLowerChar (c.toNat / 16), hexLowerChar (c.toNat % 16)]
  else [c]

/-- JSON string literal of `s` (`json.dumps` with `ensure_ascii=False`). -/
def jsonStr (s : String) : String :=
  ⟨Char.ofNat 34 :: s.data.flatMap jsonEscapeChar ++ [Char.ofNat 34]⟩

/-- `json.dumps(v, separators=(",", ":"), ensure_ascii=False)`. -/
def jsonDumps : PyVal → String
  | .none => "null"
  | .bool true => "true"
  | .bool false => "false"
  | .int n => pyIntStr n
  | .str s => jsonStr s
  | .list xs =>
      "[" ++ String.intercalate "," (xs.attach.map (fun x => jsonDumps x.1)) ++ "]"
  | .dict xs =>
      "\x7b" ++
        String.intercalate ","
          (xs.attach.map (fun kv => jsonStr kv.1.1 ++ ":" ++ jsonDumps kv.1.2)) ++
        "\x7d"
decreasing_by
  · have h := List.sizeOf_lt_of_mem x.2
    simp only [PyVal.list.sizeOf_spec]
    omega
  · have h := List.sizeOf_lt_of_mem kv.2
    have h2 : sizeOf kv.1.2 < sizeOf kv.1 := by
      obtain ⟨⟨a, b⟩, hm⟩ := kv
      simp only [Prod.mk.sizeOf_spec]
      omega
    simp only [PyVal.dict.sizeOf_spec]
    omega

/-- The literal first argument of `data.replace(...)` in
`FNSIGN.hash_signature_data`.  It is a regular-expression pattern, but
`str.replace` treats it as a plain substring. -/
def sanitizePat : String := "%(?![0-9A-Fa-f]\x7b2\x7d)"

/-- The body of the `try` block of `FNSIGN.hash_signature_data`.  Every step
(`str.replace`, `unquote`, UTF-8 encoding, MD5) is total in Python on `str`
input, so the body always succeeds; the model records this by construction.
-/
def hashSignatureDataTry (data : String) : Except PyExc String :=
  Except.ok (md5Hex (strBytes (pyUnquote (pyReplace data sanitizePat "%25"))))

/-- `FNSIGN.hash_signature_data`: the `try` body, with the `except` fallback
hashing the raw string. -/
def hash_signature_data (data : String) : String :=
  match hashSignatureDataTry data with
  | .ok h => h
  | .error _ => md5Hex (strBytes data)

/-- The fixed 30-character application constant of `generate_signature`. -/
def FNSIGN_CONST : String := "NDzZTVxnRKP8Z0jXg1VAMonaG8akvh"

/-- Query params of a URL, as Python-string dict entries. -/
def urlQueryParams (url : String) : List (String × PyVal) :=
  (parse_url url).2.map (fun kv => (kv.1, PyVal.str kv.2))

/-- The dict `{**request_info.get("params", {}), **query_params}` of the GET
branch of `generate_signature`: a fresh dict filled from the explicit params
first, then the URL-embedded query params (which therefore win key
collisions). -/
def combinedParams (params : List (String × PyVal)) (url : String) :
    List (String × PyVal) :=
  dictMerge (buildDict params) (urlQueryParams url)

/-- The canonical request text of `generate_signature`: for GET, the
stringified merged params; otherwise compact JSON of the body if one is
present and not `None`, else the empty string.  `data = some v` models the
key being present with value `v`; `none` models an absent key. -/
def requestTextOf (method url : String) (params : List (String × PyVal))
    (data : Option PyVal) : String :=
  if pyUpper method = "GET" then
    stringify_params (combinedParams params url)
  else
    match data with
    | some j => if j.isNone then "" else jsonDumps j
    | Option.none => ""

/-- The `_`-joined string hashed into `sign`. -/
def signatureRaw (path nonce timestamp signatureText secret : String) : String :=
  String.intercalate "_" [FNSIGN_CONST, path, nonce, timestamp, signatureText, secret]

/-- The `sign` component computed by `generate_signature` for a well-typed
request, with randomness `r` and millisecond timestamp `t` explicit. -/
def signOf (method url : String) (params : List (String × PyVal))
    (data : Option PyVal) (secret : String) (r : ℚ) (t : Nat) : String :=
  md5Hex (strBytes (signatureRaw (parse_url url).1 (nonceOf r) (decRepr t)
    (hash_signature_data (requestTextOf method url params data)) secret))

/-- The full signature parameter string returned on the success path of
`generate_signature`. -/
def genCore (method url : String) (params : List (String × PyVal))
    (data : Option PyVal) (secret : String) (r : ℚ) (t : Nat) : String :=
  "nonce=" ++ nonceOf r ++ "&timestamp=" ++ decRepr t ++ "&sign=" ++
    signOf method url params data secret r t

/-- The body of the `try` block of `FNSIGN.generate_signature`, over an
arbitrary runtime value for `request_info`: extraction steps that raise in
Python (`.get` on a non-dict, `.upper()` on a non-string method, `.split` on
a non-string URL, `{**v}` on a non-mapping params value) are errors; the rest
of the pipeline is total. -/
def generateSignatureTry (ri : PyVal) (secret : String) (r : ℚ) (t : Nat) :
    Except PyExc String :=
  match ri with
  | .dict d =>
      match (dictGet d "method").getD (.str "") with
      | .str m =>
          match (dictGet d "url").getD (.str "") with
          | .str url =>
              if pyUpper m = "GET" then
                match (dictGet d "params").getD (.dict []) with
                | .dict p => .ok (genCore m url p (dictGet d "data") secret r t)
                | _ => .error (.typeError "argument must be a mapping")
              else .ok (genCore m url [] (dictGet d "data") secret r t)
          | _ => .error (.attributeError "split")
      | _ => .error (.attributeError "upper")
  | _ => .error (.attributeError "get")

/-- `FNSIGN.generate_signature`: the `try` body with the catch-all `except`
that prints a diagnostic and returns the empty string.  The second component
collects the diagnostics printed. -/
def generate_signature (ri : PyVal) (secret : String) (r : ℚ) (t : Nat) :
    String × List String :=
  match generateSignatureTry ri secret r t with
  | .ok s => (s, [])
  | .error e => ("", ["生成签名时出错: " ++ e.msg])

/-- `FNWEB.BASE_URL` before any `Fnys` instance is constructed: a mutable
class attribute shared by every call site. -/
def FNWEB_BASE_URL0 : String := "/v/api/v1"

/-- `FNWEB.SECRET`, a process-wide constant. -/
def FNWEB_SECRET : String := "16CCEB3D-AB42-077D-36A1-F355324E4237"

/-- The URL `FNWEB.get_media_list` requests, as a function of the current
shared `FNWEB.BASE_URL` value. -/
def mediaListRequestUrl (g : String) : String := g ++ "/mediadb/list"

/-- Per-instance state of a constructed `Fnys` plugin object. -/
structure FnysInst where
  url : String
  username : String
  password : String
  token : String
  is_active : Bool

/-- `Fnys.__init__` with a complete config: store the three config values on
the instance, and when all are truthy, strip a trailing slash from the URL,
prepend it to the shared `FNWEB.BASE_URL` (argument `g`, returned mutated),
then attempt login (outcome abstracted as `loginR`; an exception is caught
and leaves the token empty).  `is_active` becomes true only for a truthy
token. -/
def Fnys.init (url username password : String) (loginR : Except PyExc String)
    (g : String) : FnysInst × String :=
  if url ≠ "" ∧ username ≠ "" ∧ password ≠ "" then
    let stripped : String :=
      if url.data.getLast? = some '/' then ⟨url.data.dropLast⟩ else url
    let token := match loginR with | .ok tok => tok | .error _ => ""
    ({ url := stripped, username := username, password := password,
       token := token, is_active := token ≠ "" },
     stripped ++ g)
  else
    ({ url := url, username := username, password := password,
       token := "", is_active := false }, g)

/-- `v == media_name` where `media_name` is a Python string: equality holds
only against an equal string (comparison never raises). -/
def pyEqStr (v : PyVal) (s : String) : Bool :=
  match v with
  | .str t => t = s
  | _ => false

/-- `result[k]` on a runtime value: key lookup on a dict (KeyError when
missing), TypeError otherwise. -/
def pySubscript (v : PyVal) (k : String) : Except PyExc PyVal :=
  match v with
  | .dict d =>
      match dictGet d k with
      | some x => .ok x
      | Option.none => .error (.keyError k)
  | _ => .error (.typeError "object is not subscriptable")

/-- The generator `next((item["guid"] for item in media_list if
item["title"] == media_name), None)`: items are checked lazily in order, so a
missing `"title"` (or `"guid"` on the first match) raises `KeyError`. -/
def findGuid : List (List (String × PyVal)) → String → Except PyExc (Option PyVal)
  | [], _ => .ok Option.none
  | item :: rest, name =>
      match dictGet item "title" with
      | Option.none => .error (.keyError "title")
      | some t =>
          if pyEqStr t name then
            match dictGet item "guid" with
            | Option.none => .error (.keyError "guid")
            | some g => .ok (some g)
          else findGuid rest name

/-- Observable calls `Fnys.run` makes to its collaborators. -/
inductive RunEffect where
  | mediaListCall : RunEffect
  | scanCall : PyVal → RunEffect

/-- The outcome `Fnys.run` reports (each constructor is one of the printed
diagnostics, or silence when the task names no media library). -/
inductive RunReport where
  | noMediaName : RunReport
  | notFound : String → RunReport
  | scanSuccess : String → RunReport
  | scanFailure : String → RunReport
  | requestError : String → RunReport
  | formatError : String → RunReport
  | unknownError : String → RunReport

/-- The `try` body of `Fnys.run`: list the libraries, resolve the title, and
when a truthy guid is found, scan it and read `result["data"]`.  The first
component records which collaborator calls were issued; the second is the
report, or the exception the body raised.  The media-list and scan call
outcomes are abstracted as `mediaListR` and `scanR`. -/
def Fnys.runBody (mediaName : String)
    (mediaListR : Except PyExc (List (List (String × PyVal))))
    (scanR : PyVal → Except PyExc PyVal) :
    List RunEffect × Except PyExc RunReport :=
  match mediaListR with
  | .error e => ([.mediaListCall], .error e)
  | .ok items =>
      match findGuid items mediaName with
      | .error e => ([.mediaListCall], .error e)
      | .ok Option.none => ([.mediaListCall], .ok (.notFound mediaName))
      | .ok (some g) =>
          if ¬ pyTruthy g then ([.mediaListCall], .ok (.notFound mediaName))
          else
            match scanR g with
            | .error e => ([.mediaListCall, .scanCall g], .error e)
            | .ok res =>
                match pySubscript res "data" with
                | .error e => ([.mediaListCall, .scanCall g], .error e)
                | .ok d =>
                    ([.mediaListCall, .scanCall g],
                     .ok (if pyTruthy d then .scanSuccess mediaName
                          else .scanFailure mediaName))

/-- The exception handlers of `Fnys.run`, in order:
`requests.exceptions.RequestException`, `KeyError`, then the catch-all
`except Exception`.  Together they cover every exception. -/
def catchReport : PyExc → RunReport
  | .requestException m => .requestError m
  | .keyError m => .formatError m
  | e => .unknownError e.msg

/-- `Fnys.run`: skip silently when the task names no media library
(falsy `media_name`), otherwise run the body and convert any exception into
a reported outcome. -/
def Fnys.run (mediaName : String)
    (mediaListR : Except PyExc (List (List (String × PyVal))))
    (scanR : PyVal → Except PyExc PyVal) : List RunEffect × RunReport :=
  if mediaName = "" then ([], .noMediaName)
  else
    let br := Fnys.runBody mediaName mediaListR scanR
    (br.1, match br.2 with | .ok rep => rep | .error e => catchReport e)

/-- The per-character substitution performed by `.replace("+", "%20")` on a
single-character pattern. -/
def plusSubst (c : Char) : List Char :=
  if c = '+' then ['%', '2', '0'] else [c]

/-- The encoding the spec describes for canonical GET query strings: each
character is encoded as by `quote`, with a space percent-encoded directly as
`%20` and no plus-encoding step at all. -/
def quoteSpaceChar (c : Char) : List Char :=
  if c = ' ' then ['%', '2', '0'] else quoteChar c

/-- String-level spec-side encoding with spaces as `%20`. -/
def quote_space (s : String) : String :=
  ⟨s.data.flatMap quoteSpaceChar⟩

/-- Spec-side counterpart of `urlencodeField`, using `quote_space`. -/
def urlencodeFieldSpace (k : String) (v : PyVal) : List String :=
  match v with
  | .str s => [quote_space k ++ "=" ++ quote_space s]
  | .list xs => xs.map (fun elt => quote_space k ++ "=" ++ quote_space (pyStr elt))
  | .dict xs => xs.map (fun kv => quote_space k ++ "=" ++ quote_space kv.1)
  | v => [quote_space k ++ "=" ++ quote_space (pyStr v)]

/-- Spec-side counterpart of `urlencodeDoseq`: spaces become `%20` directly,
so no trailing replacement is needed. -/
def urlencodeSpace (q : List (String × PyVal)) : String :=
  joinAmp (q.flatMap (fun kv => urlencodeFieldSpace kv.1 kv.2))

/-- String-level form of the `.replace("+", "%20")` substitution. -/
def plusSubstStr (s : String) : String :=
  ⟨s.data.flatMap plusSubst⟩

/-- Does `pat` occur as a contiguous substring of `s`? -/
def hasSubstr : List Char → List Char → Bool
  | [], pat => pat.isEmpty
  | c :: rest, pat => pat.isPrefixOf (c :: rest) || hasSubstr rest pat

theorem strLength_mk (l : List Char) : (String.mk l).length = l.length := rfl

theorem decChars_length (k : Nat) : ∀ (fuel n : Nat), 10 ^ k ≤ n →
    n < 10 ^ (k + 1) → k + 1 ≤ fuel → (decChars fuel n).length = k + 1 := by
  induction k with
  | zero =>
      intro fuel n h1 h2 h3
      obtain ⟨f, rfl⟩ : ∃ f, fuel = f + 1 := ⟨fuel - 1, by omega⟩
      have hn : n < 10 := by simpa using h2
      simp [decChars, hn]
  | succ k ih =>
      intro fuel n h1 h2 h3
      obtain ⟨f, rfl⟩ : ∃ f, fuel = f + 1 := ⟨fuel - 1, by omega⟩
      have h10 : (10 : Nat) ≤ 10 ^ (k + 1) := by
        calc (10 : Nat) = 10 ^ 1 := (pow_one 10).symm
        _ ≤ 10 ^ (k + 1) := Nat.pow_le_pow_right (by norm_num) (by omega)
      have hn : ¬ n < 10 := by omega
      have hd1 : 10 ^ k ≤ n / 10 := by
        rw [Nat.le_div_iff_mul_le (by norm_num)]
        calc 10 ^ k * 10 = 10 ^ (k + 1) := by ring
        _ ≤ n := h1
      have hd2 : n / 10 < 10 ^ (k + 1) := by
        rw [Nat.div_lt_iff_lt_mul (by norm_num)]
        calc n < 10 ^ (k + 1 + 1) := h2
        _ = 10 ^ (k + 1) * 10 := by ring
      simp [decChars, hn, ih f (n / 10) hd1 hd2 (by omega)]

theorem decChars_digits : ∀ (fuel n : Nat), ∀ c ∈ decChars fuel n,
    c.isDigit = true := by
  intro fuel
  induction fuel with
  | zero => intro n c hc; simp [decChars] at hc
  | succ f ih =>
      intro n c hc
      by_cases hn : n < 10
      · simp [decChars, hn] at hc
        subst hc
        interval_cases n <;> decide
      · simp [decChars, hn] at hc
        rcases hc with hc | hc
        · exact ih _ c hc
        · subst hc
          have hm : n % 10 < 10 := Nat.mod_lt _ (by norm_num)
          set m := n % 10 with hmdef
          interval_cases m <;> decide

theorem decRepr_length_six (n : Nat) (h1 : 100000 ≤ n) (h2 : n ≤ 999999) :
    (decRepr n).length = 6 := by
  have := decChars_length 5 (n + 1) n (by norm_num; omega) (by norm_num; omega)
    (by omega)
  simpa [decRepr, strLength_mk] using this

theorem pyRound_eq_ite (q : ℚ) :
    pyRound q = if q - ⌊q⌋ < 1 / 2 then ⌊q⌋
      else if q - ⌊q⌋ > 1 / 2 then ⌊q⌋ + 1
      else if ⌊q⌋ % 2 = 0 then ⌊q⌋ else ⌊q⌋ + 1 := rfl

theorem pyRound_bounds (q : ℚ) : ⌊q⌋ ≤ pyRound q ∧ pyRound q ≤ ⌊q⌋ + 1 := by
  rw [pyRound_eq_ite]
  split_ifs <;> omega

theorem nonceVal_eq_pyRound (r : ℚ) :
    nonceVal r = pyRound (r * 900000 + 100000) := by
  unfold nonceVal get_random_number
  rw [if_neg (by decide), if_neg (by decide)]
  norm_num

theorem nonceVal_bounds (r : ℚ) (h0 : 0 ≤ r) (h1 : r < 1) :
    100000 ≤ nonceVal r ∧ nonceVal r ≤ 1000000 := by
  have hval1 : (100000 : ℚ) ≤ r * 900000 + 100000 := by nlinarith
  have hval2 : r * 900000 + 100000 < 1000000 := by nlinarith
  have hfl : (100000 : Int) ≤ ⌊r * 900000 + 100000⌋ := by
    apply Int.le_floor.mpr
    exact_mod_cast hval1
  have hfu : ⌊r * 900000 + 100000⌋ < 1000000 := by
    apply Int.floor_lt.mpr
    exact_mod_cast hval2
  have hb := pyRound_bounds (r * 900000 + 100000)
  rw [nonceVal_eq_pyRound]
  omega

/-- C3 (counterexample): there is an outcome of the random number source —
`random.random()` returning `2249999/2250000`, a value in `[0, 1)` — for
which the nonce is `"1000000"`: seven digits, numeric value `1000000`
outside `[100000, 999999]`.  (`round(999999.6)` is `1000000`.) -/
theorem nonce_seven_digits_possible :
    (0 : ℚ) ≤ 2249999 / 2250000 ∧ (2249999 / 2250000 : ℚ) < 1 ∧
    nonceVal (2249999 / 2250000) = 1000000 ∧
    nonceOf (2249999 / 2250000) = "1000000" ∧
    (nonceOf (2249999 / 2250000)).length = 7 := by
  have h1 : (0 : ℚ) ≤ 2249999 / 2250000 := by norm_num
  have h2 : (2249999 / 2250000 : ℚ) < 1 := by norm_num
  have hf : ("round" : String) ≠ "floor" := by decide
  have hc : ("round" : String) ≠ "ceil" := by decide
  have h3 : nonceVal (2249999 / 2250000) = 1000000 := by
    norm_num [nonceVal, get_random_number, pyRound, hf, hc]
  have h4 : nonceOf (2249999 / 2250000) = "1000000" := by
    have he : nonceOf (2249999 / 2250000) =
        zfill 6 (pyIntStr (nonceVal (2249999 / 2250000))) := rfl
    rw [he, h3]
    decide
  exact ⟨h1, h2, h3, h4, by rw [h4]; decide⟩

/-- C3 (amended): for every outcome `r ∈ [0, 1)` of the random number
source, the nonce's numeric value lies in `[100000, 1000000]`, the nonce
string is the plain decimal of that value (zero-padding never fires) and
consists of digits only; it has exactly 6 digits whenever the value is at
most `999999`, and is the 7-digit string `"1000000"` otherwise. -/
theorem nonce_value_and_format (r : ℚ) (h0 : 0 ≤ r) (h1 : r < 1) :
    100000 ≤ nonceVal r ∧ nonceVal r ≤ 1000000 ∧
    nonceOf r = pyIntStr (nonceVal r) ∧
    (∀ c ∈ (nonceOf r).data, c.isDigit = true) ∧
    ((nonceOf r).length = 6 ∨ nonceOf r = "1000000") ∧
    (nonceVal r ≤ 999999 → (nonceOf r).length = 6) := by
  obtain ⟨hb1, hb2⟩ := nonceVal_bounds r h0 h1
  have hneg : ¬ nonceVal r < 0 := by omega
  have hstr : pyIntStr (nonceVal r) = decRepr (nonceVal r).toNat := by
    simp [pyIntStr, hneg]
  have hlen : (decRepr (nonceVal r).toNat).length = 6 ∨
      decRepr (nonceVal r).toNat = "1000000" := by
    by_cases h : nonceVal r ≤ 999999
    · left
      exact decRepr_length_six _ (by omega) (by omega)
    · right
      have : (nonceVal r).toNat = 1000000 := by omega
      rw [this]
      decide
  have hlen6 : 6 ≤ (decRepr (nonceVal r).toNat).length := by
    rcases hlen with h | h
    · omega
    · rw [h]; decide
  have hz : nonceOf r = decRepr (nonceVal r).toNat := by
    have he : nonceOf r = zfill 6 (pyIntStr (nonceVal r)) := rfl
    rw [he, hstr]
    simp [zfill]
    omega
  have hdig : ∀ c ∈ (nonceOf r).data, c.isDigit = true := by
    intro c hcmem
    rw [hz] at hcmem
    exact decChars_digits _ _ c hcmem
  refine ⟨hb1, hb2, by rw [hz, hstr], hdig, ?_, ?_⟩
  · rcases hlen with h | h
    · left; rw [hz]; exact h
    · right; rw [hz]; exact h
  · intro hle
    rw [hz]
    exact decRepr_length_six _ (by omega) (by omega)

/-- C3 (witness for the amended theorem at `r = 1/2`). -/
theorem nonce_value_and_format_witness :
    (0 : ℚ) ≤ 1 / 2 ∧ (1 / 2 : ℚ) < 1 ∧
    (100000 ≤ nonceVal (1 / 2) ∧ nonceVal (1 / 2) ≤ 1000000 ∧
     nonceOf (1 / 2) = pyIntStr (nonceVal (1 / 2)) ∧
     (∀ c ∈ (nonceOf (1 / 2)).data, c.isDigit = true) ∧
     ((nonceOf (1 / 2)).length = 6 ∨ nonceOf (1 / 2) = "1000000") ∧
     (nonceVal (1 / 2) ≤ 999999 → (nonceOf (1 / 2)).length = 6)) :=
  ⟨by norm_num, by norm_num,
   nonce_value_and_format (1 / 2) (by norm_num) (by norm_num)⟩

theorem md5_length (msg : List Nat) : (md5 msg).length = 16 := by
  simp [md5, le4]

theorem hexLowerChar_mem (n : Nat) (h : n < 16) :
    hexLowerChar n ∈ ("0123456789abcdef").data := by
  interval_cases n <;> decide

theorem bytesToHex_length (bs : List Nat) :
    (bytesToHex bs).length = 2 * bs.length := by
  induction bs with
  | nil => rfl
  | cons b rest ih =>
      have h1 : (bytesToHex (b :: rest)).data =
          byteHexLower b ++ (bytesToHex rest).data := rfl
      have h2 : (bytesToHex (b :: rest)).length =
          (bytesToHex (b :: rest)).data.length := rfl
      have h3 : (bytesToHex rest).length = (bytesToHex rest).data.length := rfl
      rw [h2, h1, List.length_append]
      have h4 : (byteHexLower b).length = 2 := rfl
      rw [h4, ← h3, ih, List.length_cons]
      omega

theorem bytesToHex_chars (bs : List Nat) :
    ∀ c ∈ (bytesToHex bs).data, c ∈ ("0123456789abcdef").data := by
  intro c hc
  have hd : (bytesToHex bs).data = bs.flatMap byteHexLower := rfl
  rw [hd] at hc
  simp only [List.mem_flatMap, byteHexLower] at hc
  obtain ⟨b, hbs, hc⟩ := hc
  simp only [List.mem_cons, List.mem_singleton] at hc
  rcases hc with rfl | rfl | h
  · exact hexLowerChar_mem _ (Nat.mod_lt _ (by norm_num))
  · exact hexLowerChar_mem _ (Nat.mod_lt _ (by norm_num))
  · simp at h

theorem md5Hex_length (bs : List Nat) : (md5Hex bs).length = 32 := by
  rw [md5Hex, bytesToHex_length, md5_length]

theorem md5Hex_chars (bs : List Nat) :
    ∀ c ∈ (md5Hex bs).data, c ∈ ("0123456789abcdef").data :=
  bytesToHex_chars _

/-- C5: for every request descriptor (any method, URL, params dict, body
value) and secret, `generate_signature` succeeds and its `sign` component is
exactly the MD5 hex digest of the `_`-joined concatenation of the fixed
application constant, the request path, the nonce, the timestamp, the
MD5-based `signatureText` of the canonical request text, and the secret —
a 32-character string over the lowercase hex alphabet. -/
theorem sign_is_md5_of_joined_parts (m url : String)
    (params : List (String × PyVal)) (dv : PyVal) (secret : String) (r : ℚ)
    (t : Nat) :
    generate_signature (PyVal.dict [("method", PyVal.str m),
        ("url", PyVal.str url), ("params", PyVal.dict params),
        ("data", dv)]) secret r t =
      (genCore m url (if pyUpper m = "GET" then params else []) (some dv)
        secret r t, []) ∧
    genCore m url params (some dv) secret r t =
      "nonce=" ++ nonceOf r ++ "&timestamp=" ++ decRepr t ++ "&sign=" ++
        signOf m url params (some dv) secret r t ∧
    signOf m url params (some dv) secret r t =
      md5Hex (strBytes (String.intercalate "_"
        [FNSIGN_CONST, (parse_url url).1, nonceOf r, decRepr t,
         hash_signature_data (requestTextOf m url params (some dv)), secret])) ∧
    (signOf m url params (some dv) secret r t).length = 32 ∧
    (∀ c ∈ (signOf m url params (some dv) secret r t).data,
      c ∈ ("0123456789abcdef").data) := by
  refine ⟨?_, rfl, rfl, md5Hex_length _, md5Hex_chars _⟩
  by_cases h : pyUpper m = "GET"
  · simp [generate_signature, generateSignatureTry, dictGet, List.lookup, h]
  · simp [generate_signature, generateSignatureTry, dictGet, List.lookup, h]

theorem genCore_ne_empty (m url : String) (p : List (String × PyVal))
    (d : Option PyVal) (secret : String) (r : ℚ) (t : Nat) :
    genCore m url p d secret r t ≠ "" := by
  intro h
  have h2 := congrArg String.data h
  simp [genCore, String.data_append] at h2

theorem generateSignatureTry_ok_shape (ri : PyVal) (secret : String) (r : ℚ)
    (t : Nat) (s : String)
    (h : generateSignatureTry ri secret r t = Except.ok s) :
    ∃ m url p d, s = genCore m url p d secret r t := by
  unfold generateSignatureTry at h
  repeat' split at h
  all_goals try exact Except.noConfusion h
  all_goals (cases h; exact ⟨_, _, _, _, rfl⟩)

/-- C6: for every runtime value passed as the request descriptor (including
malformed ones whose field extraction raises inside the `try` block),
`generate_signature` is total: it either succeeds with a nonempty signature
string and no diagnostic, or it catches the internal error, emits exactly
one diagnostic and returns the empty string.  No exception propagates to the
caller. -/
theorem generate_signature_never_raises (ri : PyVal) (secret : String)
    (r : ℚ) (t : Nat) :
    (∃ s, generateSignatureTry ri secret r t = Except.ok s ∧
       generate_signature ri secret r t = (s, []) ∧ s ≠ "") ∨
    (∃ e, generateSignatureTry ri secret r t = Except.error e ∧
       generate_signature ri secret r t =
         ("", ["生成签名时出错: " ++ e.msg])) := by
  match h : generateSignatureTry ri secret r t with
  | .ok s =>
      left
      refine ⟨s, rfl, by simp [generate_signature, h], ?_⟩
      obtain ⟨m, url, p, d, rfl⟩ :=
        generateSignatureTry_ok_shape ri secret r t s h
      exact genCore_ne_empty m url p d secret r t
  | .error e =>
      right
      exact ⟨e, rfl, by simp [generate_signature, h]⟩

theorem findGuid_none (name : String) :
    ∀ items : List (List (String × PyVal)),
    (∀ item ∈ items, ∃ tv, dictGet item "title" = some tv ∧
       pyEqStr tv name = false) →
    findGuid items name = Except.ok Option.none := by
  intro items
  induction items with
  | nil => intro _; rfl
  | cons item rest ih =>
      intro h
      obtain ⟨tv, htv, hne⟩ := h item (List.mem_cons_self item rest)
      simp only [findGuid, htv, hne]
      simp only [Bool.false_eq_true, if_false]
      exact ih (fun it hit => h it (List.mem_cons_of_mem _ hit))

/-- C7: when the requested media name is truthy and matches no title in the
returned media list, `Fnys.run` issues the media-list call only (no scan
call), and reports "not found" — and in general every exception raised by
the body (media-list call, title lookup, scan call, envelope access) is
converted by the handlers into a reported outcome instead of escaping. -/
theorem run_not_found_and_absorbs :
    (∀ (name : String) (items : List (List (String × PyVal)))
       (scanR : PyVal → Except PyExc PyVal),
       name ≠ "" →
       (∀ item ∈ items, ∃ tv, dictGet item "title" = some tv ∧
          pyEqStr tv name = false) →
       Fnys.run name (Except.ok items) scanR =
         ([RunEffect.mediaListCall], RunReport.notFound name)) ∧
    (∀ (name : String) (mediaListR : Except PyExc (List (List (String × PyVal))))
       (scanR : PyVal → Except PyExc PyVal) (e : PyExc),
       name ≠ "" →
       (Fnys.runBody name mediaListR scanR).2 = Except.error e →
       Fnys.run name mediaListR scanR =
         ((Fnys.runBody name mediaListR scanR).1, catchReport e)) := by
  constructor
  · intro name items scanR hname h
    simp [Fnys.run, Fnys.runBody, hname, findGuid_none name items h]
  · intro name mediaListR scanR e hname h
    simp [Fnys.run, hname, h]

/-- C7 (witness): a task naming `"Nonexistent"` against a library list
containing only `"Movies"` issues no scan call and reports not-found. -/
theorem run_not_found_witness :
    Fnys.run "Nonexistent"
      (Except.ok [[("guid", PyVal.str "g1"), ("title", PyVal.str "Movies")]])
      (fun _ => Except.ok (PyVal.dict [])) =
      ([RunEffect.mediaListCall], RunReport.notFound "Nonexistent") :=
  run_not_found_and_absorbs.1 "Nonexistent"
    [[("guid", PyVal.str "g1"), ("title", PyVal.str "Movies")]]
    (fun _ => Except.ok (PyVal.dict [])) (by decide)
    (by
      intro item hit
      simp only [List.mem_singleton] at hit
      subst hit
      exact ⟨PyVal.str "Movies", rfl, rfl⟩)
theorem dictSet_lookup_self {α : Type} (d : List (String × α)) (k : String) (v : α) :
    (dictSet d k v).lookup k = some v := by
  induction d with
  | nil => simp [dictSet, List.lookup]
  | cons kv rest ih =>
      obtain ⟨k', v'⟩ := kv
      by_cases h : k' = k
      · simp [dictSet, h, List.lookup]
      · have hb : (k == k') = false := beq_eq_false_iff_ne.mpr (Ne.symm h)
        simp [dictSet, h, List.lookup, hb, ih]

theorem dictSet_lookup_other {α : Type} (d : List (String × α)) (k : String)
    (v : α) (k' : String) (h : k' ≠ k) :
    (dictSet d k v).lookup k' = d.lookup k' := by
  have hb : (k' == k) = false := beq_eq_false_iff_ne.mpr h
  induction d with
  | nil => simp [dictSet, List.lookup, hb]
  | cons kv rest ih =>
      obtain ⟨k0, v0⟩ := kv
      by_cases h0 : k0 = k
      · subst h0
        simp [dictSet, List.lookup, hb]
      · simp [dictSet, h0, List.lookup, ih]

theorem mem_dictSet {α : Type} (d : List (String × α)) (k : String) (v : α)
    (kv : String × α) (h : kv ∈ dictSet d k v) : kv ∈ d ∨ kv = (k, v) := by
  induction d with
  | nil => simp [dictSet] at h; right; exact h
  | cons kv0 rest ih =>
      obtain ⟨k0, v0⟩ := kv0
      by_cases h0 : k0 = k
      · simp [dictSet, h0] at h
        rcases h with h | h
        · right; exact h
        · left; exact List.mem_cons_of_mem _ h
      · simp only [dictSet, h0, if_false, List.mem_cons] at h
        rcases h with h | h
        · left; simp [h]
        · rcases ih h with h2 | h2
          · left; exact List.mem_cons_of_mem _ h2
          · right; exact h2

theorem mem_dictMerge {α : Type} (l : List (String × α)) :
    ∀ (d : List (String × α)) (kv : String × α), kv ∈ dictMerge d l →
      kv ∈ d ∨ kv ∈ l := by
  induction l with
  | nil => intro d kv h; left; exact h
  | cons kv0 rest ih =>
      intro d kv h
      have h2 : dictMerge d (kv0 :: rest) = dictMerge (dictSet d kv0.1 kv0.2) rest := rfl
      rw [h2] at h
      rcases ih _ kv h with h3 | h3
      · rcases mem_dictSet _ _ _ _ h3 with h4 | h4
        · left; exact h4
        · right; rw [h4]; exact List.mem_cons_self _ _
      · right; exact List.mem_cons_of_mem _ h3

theorem keys_dictSet {α : Type} (d : List (String × α)) (k : String) (v : α)
    (x : String) (h : x ∈ (dictSet d k v).map Prod.fst) :
    x ∈ d.map Prod.fst ∨ x = k := by
  simp only [List.mem_map] at h
  obtain ⟨kv, hkv, rfl⟩ := h
  rcases mem_dictSet _ _ _ _ hkv with h2 | h2
  · left; exact List.mem_map_of_mem _ h2
  · right; rw [h2]

theorem dictSet_keysNodup {α : Type} (d : List (String × α)) (k : String) (v : α)
    (h : (d.map Prod.fst).Nodup) : ((dictSet d k v).map Prod.fst).Nodup := by
  induction d with
  | nil => simp [dictSet]
  | cons kv0 rest ih =>
      obtain ⟨k0, v0⟩ := kv0
      rw [List.map_cons, List.nodup_cons] at h
      obtain ⟨hnotin, hnd⟩ := h
      by_cases h0 : k0 = k
      · subst h0
        simp only [dictSet, if_pos rfl, ite_true, eq_self_iff_true]
        rw [List.map_cons, List.nodup_cons]
        exact ⟨hnotin, hnd⟩
      · simp only [dictSet, h0, if_false]
        rw [List.map_cons, List.nodup_cons]
        refine ⟨?_, ih hnd⟩
        intro hc
        rcases keys_dictSet rest k v k0 hc with h2 | h2
        · exact hnotin h2
        · exact h0 h2

theorem dictMerge_keysNodup {α : Type} (l : List (String × α)) :
    ∀ d : List (String × α), (d.map Prod.fst).Nodup →
      ((dictMerge d l).map Prod.fst).Nodup := by
  induction l with
  | nil => intro d h; exact h
  | cons kv0 rest ih =>
      intro d h
      exact ih _ (dictSet_keysNodup d kv0.1 kv0.2 h)

theorem buildDict_keysNodup {α : Type} (l : List (String × α)) :
    ((buildDict l).map Prod.fst).Nodup :=
  dictMerge_keysNodup l [] (by simp)

theorem dictMerge_lookup_not_mem {α : Type} (l : List (String × α)) :
    ∀ (d : List (String × α)) (k : String), k ∉ l.map Prod.fst →
      (dictMerge d l).lookup k = d.lookup k := by
  induction l with
  | nil => intro d k _; rfl
  | cons kv0 rest ih =>
      intro d k hk
      rw [List.map_cons] at hk
      have hk1 : k ≠ kv0.1 := fun h => hk (by rw [h]; exact List.mem_cons_self _ _)
      have hk2 : k ∉ rest.map Prod.fst := fun h => hk (List.mem_cons_of_mem _ h)
      have h2 : dictMerge d (kv0 :: rest) = dictMerge (dictSet d kv0.1 kv0.2) rest := rfl
      rw [h2, ih _ k hk2, dictSet_lookup_other _ _ _ _ hk1]

theorem dictMerge_lookup_of_mem {α : Type} (l : List (String × α)) :
    ∀ (d : List (String × α)) (k : String) (v : α),
      l.lookup k = some v → (l.map Prod.fst).Nodup →
      (dictMerge d l).lookup k = some v := by
  induction l with
  | nil => intro d k v h _; simp [List.lookup] at h
  | cons kv0 rest ih =>
      intro d k v h hnd
      obtain ⟨k0, v0⟩ := kv0
      rw [List.map_cons, List.nodup_cons] at hnd
      obtain ⟨hnotin, hnd⟩ := hnd
      have h2 : dictMerge d ((k0, v0) :: rest) = dictMerge (dictSet d k0 v0) rest := rfl
      rw [h2]
      by_cases hk : k = k0
      · subst hk
        have hv : some v0 = some v := by simpa [List.lookup] using h
        injection hv with hv
        subst hv
        rw [dictMerge_lookup_not_mem rest _ k hnotin]
        exact dictSet_lookup_self d k v0
      · have hb : (k == k0) = false := beq_eq_false_iff_ne.mpr hk
        have h3 : List.lookup k rest = some v := by simpa [List.lookup, hb] using h
        exact ih _ k v h3 hnd
theorem lookup_map_str (l : List (String × String)) (k : String) :
    (l.map (fun kv => (kv.1, PyVal.str kv.2))).lookup k =
      (l.lookup k).map PyVal.str := by
  induction l with
  | nil => rfl
  | cons kv rest ih =>
      obtain ⟨k0, v0⟩ := kv
      by_cases h : k = k0
      · subst h
        simp [List.lookup]
      · have hb : (k == k0) = false := beq_eq_false_iff_ne.mpr h
        simp [List.lookup, hb, ih]

theorem parse_url_keysNodup (url : String) :
    (((parse_url url).2).map Prod.fst).Nodup := by
  unfold parse_url
  split
  · simp
  · split
    · simp
    · exact buildDict_keysNodup _

/-- C1 (counterexample): for the GET descriptor with URL `/p?a=1` and
explicit params `{"a": "2"}`, the canonical request text is `a=1` — the
URL-embedded value — whereas with no URL query the explicit value `a=2`
would have been used, so explicit params do not take precedence. -/
theorem url_params_win_collision_example :
    requestTextOf "GET" "/p?a=1" [("a", PyVal.str "2")] Option.none = "a=1" ∧
    requestTextOf "GET" "/p" [("a", PyVal.str "2")] Option.none = "a=2" ∧
    ("a=1" : String) ≠ "a=2" := by
  refine ⟨by decide, by decide, by decide⟩

/-- C1 (amended): on a key collision it is the URL-embedded query value that
the merged dict (and hence the canonical request text) uses, the explicit
param being overwritten by the later `**query_params` unpacking. -/
theorem url_params_take_precedence (params : List (String × PyVal))
    (url : String) (d : Option PyVal) (k v : String)
    (h : (parse_url url).2.lookup k = some v) :
    (combinedParams params url).lookup k = some (PyVal.str v) ∧
    requestTextOf "GET" url params d =
      stringify_params (combinedParams params url) := by
  constructor
  · unfold combinedParams
    apply dictMerge_lookup_of_mem
    · unfold urlQueryParams
      rw [lookup_map_str, h]
      rfl
    · unfold urlQueryParams
      have : ((parse_url url).2.map (fun kv => (kv.1, PyVal.str kv.2))).map Prod.fst
          = ((parse_url url).2).map Prod.fst := by
        simp [List.map_map]
      rw [this]
      exact parse_url_keysNodup url
  · unfold requestTextOf
    rw [if_pos (by decide)]

/-- C1 (witness for the amended theorem). -/
theorem url_params_take_precedence_witness :
    (parse_url "/p?a=1").2.lookup "a" = some "1" ∧
    ((combinedParams [("a", PyVal.str "2")] "/p?a=1").lookup "a" =
       some (PyVal.str "1") ∧
     requestTextOf "GET" "/p?a=1" [("a", PyVal.str "2")] Option.none =
       stringify_params (combinedParams [("a", PyVal.str "2")] "/p?a=1")) :=
  ⟨by decide,
   url_params_take_precedence [("a", PyVal.str "2")] "/p?a=1" Option.none
     "a" "1" (by decide)⟩
/-- C2 (counterexample): an explicit GET param whose value is the literal
string `"undefined"` is kept in the canonical request text (`a=undefined`),
while the same value embedded in the URL query string is dropped — the
`None`-only filter of `stringify_params` does not exclude literal
`"undefined"`/`"null"` strings. -/
theorem explicit_undefined_not_excluded :
    requestTextOf "GET" "/p" [("a", PyVal.str "undefined")] Option.none =
      "a=undefined" ∧
    requestTextOf "GET" "/p?b=undefined&c=null" [] Option.none = "" ∧
    ("a=undefined" : String) ≠ "" := by
  refine ⟨by decide, by decide, by decide⟩

/-- C2 (amended): URL-embedded params with decoded value `"undefined"` or
`"null"` never appear in the parsed query dict, but the filter applied to
the merged explicit params only drops Python `None` values: every explicit
entry whose value is not `None` — the literal strings `"undefined"` and
`"null"` included — survives filtering. -/
theorem undefined_filter_url_only :
    (∀ (url : String) (k v : String), (k, v) ∈ (parse_url url).2 →
       v ≠ "undefined" ∧ v ≠ "null") ∧
    (∀ p : List (String × PyVal), (∀ kv ∈ p, kv.2.isNone = false) →
       stringifyFiltered p = sortParams p) := by
  constructor
  · intro url k v hmem
    unfold parse_url at hmem
    split at hmem
    · simp at hmem
    · split at hmem
      · simp at hmem
      · rcases mem_dictMerge _ _ _ hmem with h | h
        · simp at h
        · rw [List.mem_filter] at h
          have := of_decide_eq_true h.2
          exact this
  · intro p h
    unfold stringifyFiltered
    apply List.filter_eq_self.mpr
    intro kv hmem
    unfold sortParams at hmem
    have hp : kv ∈ p := (List.perm_insertionSort _ p).mem_iff.mp hmem
    simp [h kv hp]

/-- C2 (witness for the amended theorem). -/
theorem undefined_filter_url_only_witness :
    (("b", "undefined") ∈ (parse_url "/p?a=1").2 → False) ∧
    ([(("a" : String), PyVal.str "undefined")].all
        (fun kv => kv.2.isNone = false)) ∧
    stringifyFiltered [("a", PyVal.str "undefined")] =
      sortParams [("a", PyVal.str "undefined")] :=
  ⟨by decide,
   by decide,
   undefined_filter_url_only.2 [("a", PyVal.str "undefined")]
     (by
       intro kv hkv
       simp only [List.mem_singleton] at hkv
       subst hkv
       rfl)⟩
/-- C4 (counterexample): constructing a second instance with base URL
`http://b` after one with `http://a` leaves the shared `FNWEB.BASE_URL` at
`http://bhttp://a/v/api/v1`, so media-list requests through the first
instance no longer target `http://a/v/api/v1`. -/
theorem base_url_shared_mutation_example :
    (Fnys.init "http://b" "u2" "p2" (Except.error (PyExc.requestException "conn"))
        (Fnys.init "http://a" "u1" "p1"
          (Except.error (PyExc.requestException "conn")) FNWEB_BASE_URL0).2).2
      = "http://bhttp://a/v/api/v1" ∧
    mediaListRequestUrl "http://bhttp://a/v/api/v1" ≠
      mediaListRequestUrl ("http://a" ++ FNWEB_BASE_URL0) := by
  refine ⟨by decide, by decide⟩

/-- C4 (amended): constructing an instance with a complete truthy config
mutates the process-wide `FNWEB.BASE_URL` shared by all instances,
prepending the instance's URL to its current value; after a second
construction the shared base URL is the compounded
`url2 ++ url1 ++ "/v/api/v1"`, and operations through either instance use
it.  Only the per-instance fields (`url`, `token`, `is_active`) are
instance-local. -/
theorem base_url_shared_mutation (u1 un1 pw1 u2 un2 pw2 : String)
    (lr1 lr2 : Except PyExc String)
    (h1 : u1 ≠ "") (h2 : un1 ≠ "") (h3 : pw1 ≠ "")
    (h4 : u2 ≠ "") (h5 : un2 ≠ "") (h6 : pw2 ≠ "")
    (h7 : u1.data.getLast? ≠ some '/') (h8 : u2.data.getLast? ≠ some '/') :
    (Fnys.init u1 un1 pw1 lr1 FNWEB_BASE_URL0).2 = u1 ++ FNWEB_BASE_URL0 ∧
    (Fnys.init u2 un2 pw2 lr2
        (Fnys.init u1 un1 pw1 lr1 FNWEB_BASE_URL0).2).2 =
      u2 ++ (u1 ++ FNWEB_BASE_URL0) ∧
    (Fnys.init u1 un1 pw1 lr1 FNWEB_BASE_URL0).1.url = u1 ∧
    mediaListRequestUrl
        (Fnys.init u2 un2 pw2 lr2
          (Fnys.init u1 un1 pw1 lr1 FNWEB_BASE_URL0).2).2 =
      (u2 ++ (u1 ++ FNWEB_BASE_URL0)) ++ "/mediadb/list" := by
  have e1 : Fnys.init u1 un1 pw1 lr1 FNWEB_BASE_URL0 =
      ({ url := u1, username := un1, password := pw1,
         token := match lr1 with | .ok tok => tok | .error _ => "",
         is_active := (match lr1 with | .ok tok => tok | .error _ => "") ≠ "" },
       u1 ++ FNWEB_BASE_URL0) := by
    unfold Fnys.init
    rw [if_pos ⟨h1, h2, h3⟩, if_neg h7]
  have e2 : ∀ g : String, Fnys.init u2 un2 pw2 lr2 g =
      ({ url := u2, username := un2, password := pw2,
         token := match lr2 with | .ok tok => tok | .error _ => "",
         is_active := (match lr2 with | .ok tok => tok | .error _ => "") ≠ "" },
       u2 ++ g) := by
    intro g
    unfold Fnys.init
    rw [if_pos ⟨h4, h5, h6⟩, if_neg h8]
  rw [e1, e2]
  exact ⟨rfl, rfl, rfl, rfl⟩

/-- C4 (witness for the amended theorem). -/
theorem base_url_shared_mutation_witness :
    (Fnys.init "http://a" "u1" "p1"
        (Except.error (PyExc.requestException "conn")) FNWEB_BASE_URL0).2 =
      "http://a" ++ FNWEB_BASE_URL0 ∧
    (Fnys.init "http://b" "u2" "p2"
        (Except.error (PyExc.requestException "conn"))
        (Fnys.init "http://a" "u1" "p1"
          (Except.error (PyExc.requestException "conn")) FNWEB_BASE_URL0).2).2 =
      "http://b" ++ ("http://a" ++ FNWEB_BASE_URL0) ∧
    (Fnys.init "http://a" "u1" "p1"
        (Except.error (PyExc.requestException "conn")) FNWEB_BASE_URL0).1.url =
      "http://a" ∧
    mediaListRequestUrl
        (Fnys.init "http://b" "u2" "p2"
          (Except.error (PyExc.requestException "conn"))
          (Fnys.init "http://a" "u1" "p1"
            (Except.error (PyExc.requestException "conn")) FNWEB_BASE_URL0).2).2 =
      ("http://b" ++ ("http://a" ++ FNWEB_BASE_URL0)) ++ "/mediadb/list" :=
  base_url_shared_mutation "http://a" "u1" "p1" "http://b" "u2" "p2"
    (Except.error (PyExc.requestException "conn"))
    (Except.error (PyExc.requestException "conn"))
    (by decide) (by decide) (by decide) (by decide) (by decide) (by decide)
    (by decide) (by decide)
theorem replaceChars_no_occurrence (pat new : List Char) :
    ∀ (fuel : Nat) (cs : List Char), hasSubstr cs pat = false →
    replaceChars fuel cs pat new = cs := by
  intro fuel
  induction fuel with
  | zero => intro cs _; cases cs <;> rfl
  | succ f ih =>
      intro cs h
      cases cs with
      | nil => rfl
      | cons c rest =>
          simp only [hasSubstr, Bool.or_eq_false_iff] at h
          simp only [replaceChars]
          rw [if_neg (fun hcon => absurd hcon.2 (by simp [h.1]))]
          rw [ih rest h.2]

/-- C10: `hash_signature_data`'s `except` fallback is unreachable: the
`try` body always succeeds (the "regex" is replaced as a literal substring
and percent-decoding is total), so the result is always the MD5 hex digest
of the percent-decoded, sanitised input; when the exotic literal pattern
does not occur in the input — in particular for every canonical request
text — the sanitising replace is the identity and the result is the MD5 of
the percent-decoded input itself, malformed percent sequences passing
through undecoded. -/
theorem hash_signature_fallback_unreachable (data : String) :
    (∃ h, hashSignatureDataTry data = Except.ok h ∧
       hash_signature_data data = h) ∧
    (hasSubstr data.data sanitizePat.data = false →
       hash_signature_data data = md5Hex (strBytes (pyUnquote data))) := by
  constructor
  · exact ⟨_, rfl, rfl⟩
  · intro h
    have hrep : pyReplace data sanitizePat "%25" = data := by
      unfold pyReplace
      rw [replaceChars_no_occurrence sanitizePat.data ("%25").data
        data.data.length data.data h]
    unfold hash_signature_data hashSignatureDataTry
    rw [hrep]

/-- C10 (witness): at the input `"a%zzb"` (a malformed percent sequence),
the pattern is absent and the hash is the MD5 of the tolerant decode. -/
theorem hash_signature_fallback_unreachable_witness :
    hasSubstr ("a%zzb").data sanitizePat.data = false ∧
    hash_signature_data "a%zzb" = md5Hex (strBytes (pyUnquote "a%zzb")) :=
  ⟨by decide, (hash_signature_fallback_unreachable "a%zzb").2 (by decide)⟩
theorem strExt {s t : String} (h : s.data = t.data) : s = t := by
  cases s
  cases t
  exact congrArg String.mk h

theorem replaceChars_single (c0 : Char) (new : List Char) :
    ∀ (fuel : Nat) (cs : List Char), cs.length ≤ fuel →
    replaceChars fuel cs [c0] new =
      cs.flatMap (fun c => if c = c0 then new else [c]) := by
  intro fuel
  induction fuel with
  | zero =>
      intro cs h
      cases cs with
      | nil => rfl
      | cons c rest => simp at h
  | succ f ih =>
      intro cs h
      cases cs with
      | nil => rfl
      | cons c rest =>
          have hlen : rest.length ≤ f := by
            rw [List.length_cons] at h
            omega
          by_cases hc : c = c0
          · subst hc
            simp only [replaceChars]
            rw [if_pos ⟨by simp, by simp [List.isPrefixOf]⟩]
            simp only [List.length_cons, List.length_nil, Nat.zero_add,
              List.drop_succ_cons, List.drop_zero, List.flatMap_cons, if_pos rfl]
            rw [ih rest hlen]
            simp
          · have hb : (c0 == c) = false := beq_eq_false_iff_ne.mpr (Ne.symm hc)
            simp only [replaceChars]
            rw [if_neg (fun hcon => by
              have := hcon.2
              simp [List.isPrefixOf, hb] at this)]
            simp only [List.flatMap_cons, if_neg hc]
            rw [ih rest hlen]
            rfl

theorem pyReplace_plus_eq (s : String) :
    pyReplace s "+" "%20" = plusSubstStr s := by
  apply strExt
  show (replaceChars s.data.length s.data ("+").data ("%20").data) =
    s.data.flatMap plusSubst
  rw [show ("+" : String).data = ['+'] from rfl]
  rw [replaceChars_single '+' ("%20").data s.data.length s.data (le_refl _)]
  rfl

theorem plusSubst_no_plus (cs : List Char) : '+' ∉ cs.flatMap plusSubst := by
  induction cs with
  | nil => simp
  | cons c rest ih =>
      simp only [List.flatMap_cons, List.mem_append]
      rintro (h | h)
      · unfold plusSubst at h
        by_cases hc : c = '+'
        · rw [if_pos hc] at h
          simp at h
        · rw [if_neg hc] at h
          exact hc (List.mem_singleton.mp h).symm
      · exact ih h

theorem hexUpperChar_ne_plus (n : Nat) (h : n < 16) : hexUpperChar n ≠ '+' := by
  interval_cases n <;> decide

theorem percentByte_no_plus (b : Nat) : ∀ x ∈ percentByte b, x ≠ '+' := by
  intro x hx
  simp only [percentByte, List.mem_cons, List.not_mem_nil, or_false] at hx
  rcases hx with rfl | rfl | rfl
  · decide
  · exact hexUpperChar_ne_plus _ (Nat.mod_lt _ (by norm_num))
  · exact hexUpperChar_ne_plus _ (Nat.mod_lt _ (by norm_num))

theorem quoteChar_no_plus (c : Char) : ∀ x ∈ quoteChar c, x ≠ '+' := by
  intro x hx
  unfold quoteChar at hx
  by_cases hs : urlSafeChar c = true
  · rw [if_pos hs] at hx
    rcases List.mem_singleton.mp hx with rfl
    intro hcon
    rw [hcon] at hs
    exact absurd hs (by decide)
  · rw [if_neg hs] at hx
    obtain ⟨b, _, hxb⟩ := List.mem_flatMap.mp hx
    exact percentByte_no_plus b x hxb

theorem flatMap_plusSubst_of_no_plus (l : List Char) (h : ∀ x ∈ l, x ≠ '+') :
    l.flatMap plusSubst = l := by
  induction l with
  | nil => rfl
  | cons c rest ih =>
      rw [List.flatMap_cons]
      have hc : c ≠ '+' := h c (List.mem_cons_self _ _)
      rw [show plusSubst c = [c] from if_neg hc]
      rw [ih (fun x hx => h x (List.mem_cons_of_mem _ hx))]
      rfl

theorem quotePlusChar_subst (c : Char) :
    (quotePlusChar c).flatMap plusSubst = quoteSpaceChar c := by
  unfold quotePlusChar quoteSpaceChar
  by_cases hc : c = ' '
  · rw [if_pos hc, if_pos hc]
    rfl
  · rw [if_neg hc, if_neg hc]
    exact flatMap_plusSubst_of_no_plus _ (quoteChar_no_plus c)

theorem plusSubstStr_data (s : String) :
    (plusSubstStr s).data = s.data.flatMap plusSubst := rfl

theorem plusSubstStr_append (s t : String) :
    plusSubstStr (s ++ t) = plusSubstStr s ++ plusSubstStr t := by
  apply strExt
  rw [plusSubstStr_data, String.data_append, String.data_append,
    plusSubstStr_data, plusSubstStr_data, List.flatMap_append]

theorem plusSubstStr_quote_plus (s : String) :
    plusSubstStr (quote_plus s) = quote_space s := by
  apply strExt
  rw [plusSubstStr_data]
  show (s.data.flatMap quotePlusChar).flatMap plusSubst =
    s.data.flatMap quoteSpaceChar
  rw [List.flatMap_assoc]
  exact List.flatMap_congr (fun c _ => quotePlusChar_subst c)

theorem joinAmp_subst (parts : List String) :
    plusSubstStr (joinAmp parts) = joinAmp (parts.map plusSubstStr) := by
  induction parts with
  | nil => rfl
  | cons x xs ih =>
      cases xs with
      | nil => rfl
      | cons y rest =>
          have h1 : joinAmp (x :: y :: rest) = x ++ "&" ++ joinAmp (y :: rest) := rfl
          have h2 : joinAmp (plusSubstStr x :: plusSubstStr y ::
              rest.map plusSubstStr) = plusSubstStr x ++ "&" ++
              joinAmp (plusSubstStr y :: rest.map plusSubstStr) := rfl
          rw [List.map_cons, List.map_cons, h1, h2, plusSubstStr_append,
            plusSubstStr_append]
          rw [List.map_cons] at ih
          rw [ih]
          rfl

theorem urlencodeField_subst (k : String) (v : PyVal) :
    (urlencodeField k v).map plusSubstStr = urlencodeFieldSpace k v := by
  have hq : ∀ a b : String, plusSubstStr (quote_plus a ++ "=" ++ quote_plus b) =
      quote_space a ++ "=" ++ quote_space b := by
    intro a b
    rw [plusSubstStr_append, plusSubstStr_append, plusSubstStr_quote_plus,
      plusSubstStr_quote_plus]
    rfl
  cases v with
  | str s => simp only [urlencodeField, urlencodeFieldSpace, List.map_cons,
      List.map_nil, hq]
  | list xs =>
      simp only [urlencodeField, urlencodeFieldSpace, List.map_map]
      exact List.map_congr_left (fun elt _ => hq k (pyStr elt))
  | dict xs =>
      simp only [urlencodeField, urlencodeFieldSpace, List.map_map]
      exact List.map_congr_left (fun kv _ => hq k kv.1)
  | none => simp only [urlencodeField, urlencodeFieldSpace, List.map_cons,
      List.map_nil, hq]
  | bool b => simp only [urlencodeField, urlencodeFieldSpace, List.map_cons,
      List.map_nil, hq]
  | int n => simp only [urlencodeField, urlencodeFieldSpace, List.map_cons,
      List.map_nil, hq]

theorem urlencode_fields_subst (q : List (String × PyVal)) :
    (q.flatMap (fun kv => urlencodeField kv.1 kv.2)).map plusSubstStr =
      q.flatMap (fun kv => urlencodeFieldSpace kv.1 kv.2) := by
  induction q with
  | nil => rfl
  | cons kv rest ih =>
      rw [List.flatMap_cons, List.flatMap_cons, List.map_append, ih,
        urlencodeField_subst]

theorem stringify_params_space_eq (p : List (String × PyVal)) :
    stringify_params p = urlencodeSpace (stringifyFiltered p) := by
  unfold stringify_params urlencodeSpace urlencodeDoseq
  rw [pyReplace_plus_eq, joinAmp_subst, urlencode_fields_subst]

theorem stringify_params_no_plus (p : List (String × PyVal)) :
    '+' ∉ (stringify_params p).data := by
  unfold stringify_params
  rw [pyReplace_plus_eq, plusSubstStr_data]
  exact plusSubst_no_plus _

/-- C9: canonical GET query strings contain no `+` at all; the whole
encoding equals the spec-side encoder in which a space is percent-encoded
directly as `%20` (and every other character as plain `quote`), and a
literal `+` in a value is percent-encoded as `%2B` by `quote_plus`, hence
never turned into `%20`. -/
theorem space_as_percent20_never_plus (p : List (String × PyVal)) :
    '+' ∉ (stringify_params p).data ∧
    stringify_params p = urlencodeSpace (stringifyFiltered p) ∧
    quoteSpaceChar ' ' = ['%', '2', '0'] ∧
    quotePlusChar '+' = ['%', '2', 'B'] :=
  ⟨stringify_params_no_plus p, stringify_params_space_eq p, rfl, by decide⟩
theorem sortParams_eq_of_perm (p1 p2 : List (String × PyVal))
    (hperm : p1.Perm p2) (hnd : (p1.map Prod.fst).Nodup) :
    sortParams p1 = sortParams p2 := by
  haveI h3 : IsAntisymm (String × PyVal) (fun a b => a.1 < b.1) :=
    ⟨fun a b hab hba => absurd hba (lt_asymm hab)⟩
  haveI h4 : IsTotal (String × PyVal) (fun a b => a.1 ≤ b.1) :=
    ⟨fun a b => le_total a.1 b.1⟩
  haveI h5 : IsTrans (String × PyVal) (fun a b => a.1 ≤ b.1) :=
    ⟨fun a b c hab hbc => le_trans hab hbc⟩
  have e1 : (sortParams p1).Perm p1 := List.perm_insertionSort _ _
  have e2 : (sortParams p2).Perm p2 := List.perm_insertionSort _ _
  have hp : (sortParams p1).Perm (sortParams p2) :=
    e1.trans (hperm.trans e2.symm)
  have hs1 : List.Sorted (fun a b : String × PyVal => a.1 ≤ b.1) (sortParams p1) :=
    List.sorted_insertionSort _ _
  have hs2 : List.Sorted (fun a b : String × PyVal => a.1 ≤ b.1) (sortParams p2) :=
    List.sorted_insertionSort _ _
  have hnd1 : ((sortParams p1).map Prod.fst).Nodup :=
    ((e1.map Prod.fst).nodup_iff).mpr hnd
  have hnd2' : (p2.map Prod.fst).Nodup := ((hperm.map Prod.fst).nodup_iff).mp hnd
  have hnd2 : ((sortParams p2).map Prod.fst).Nodup :=
    ((e2.map Prod.fst).nodup_iff).mpr hnd2'
  have hstrict : ∀ l : List (String × PyVal),
      List.Sorted (fun a b : String × PyVal => a.1 ≤ b.1) l →
      (l.map Prod.fst).Nodup →
      List.Sorted (fun a b : String × PyVal => a.1 < b.1) l := by
    intro l hs hn
    have hne : List.Pairwise (fun a b : String × PyVal => a.1 ≠ b.1) l :=
      List.pairwise_map.mp hn
    exact (hs.and hne).imp (fun h => lt_of_le_of_ne h.1 h.2)
  exact List.eq_of_perm_of_sorted hp (hstrict _ hs1 hnd1) (hstrict _ hs2 hnd2)

theorem dictSet_perm (k : String) (v : PyVal) :
    ∀ {d1 d2 : List (String × PyVal)}, d1.Perm d2 →
      (d1.map Prod.fst).Nodup → (dictSet d1 k v).Perm (dictSet d2 k v) := by
  intro d1 d2 h
  induction h with
  | nil => intro _; exact List.Perm.refl _
  | cons x h ih =>
      intro hnd
      rw [List.map_cons, List.nodup_cons] at hnd
      obtain ⟨k0, v0⟩ := x
      by_cases hk : k0 = k
      · simp only [dictSet, if_pos hk]
        exact h.cons _
      · simp only [dictSet, if_neg hk]
        exact (ih hnd.2).cons _
  | swap x y l =>
      intro hnd
      obtain ⟨kx, vx⟩ := x
      obtain ⟨ky, vy⟩ := y
      rw [List.map_cons, List.map_cons, List.nodup_cons] at hnd
      have hkxy : ky ≠ kx :=
        fun hc => hnd.1 (by rw [hc]; exact List.mem_cons_self _ _)
      by_cases h1 : ky = k
      · have h2 : kx ≠ k := fun hc => hkxy (by rw [h1, hc])
        simp only [dictSet, if_pos h1, if_neg h2]
        exact List.Perm.swap _ _ _
      · by_cases h2 : kx = k
        · simp only [dictSet, if_neg h1, if_pos h2]
          exact List.Perm.swap _ _ _
        · simp only [dictSet, if_neg h1, if_neg h2]
          exact List.Perm.swap _ _ _
  | trans h1 h2 ih1 ih2 =>
      intro hnd
      have hnd2 := ((h1.map Prod.fst).nodup_iff).mp hnd
      exact (ih1 hnd).trans (ih2 hnd2)

theorem dictMerge_perm (q : List (String × PyVal)) :
    ∀ {d1 d2 : List (String × PyVal)}, d1.Perm d2 →
      (d1.map Prod.fst).Nodup →
      (dictMerge d1 q).Perm (dictMerge d2 q) := by
  induction q with
  | nil => intro d1 d2 h _; exact h
  | cons kv rest ih =>
      intro d1 d2 h hnd
      exact ih (dictSet_perm kv.1 kv.2 h hnd) (dictSet_keysNodup _ _ _ hnd)

theorem dictSet_append_of_not_mem {α : Type} (d : List (String × α))
    (k : String) (v : α) (h : k ∉ d.map Prod.fst) :
    dictSet d k v = d ++ [(k, v)] := by
  induction d with
  | nil => rfl
  | cons kv0 rest ih =>
      obtain ⟨k0, v0⟩ := kv0
      rw [List.map_cons] at h
      have hk : k0 ≠ k :=
        fun hc => h (by rw [hc]; exact List.mem_cons_self _ _)
      have h2 : k ∉ rest.map Prod.fst := fun hc => h (List.mem_cons_of_mem _ hc)
      simp only [dictSet, if_neg hk, List.cons_append]
      rw [ih h2]

theorem dictMerge_append_of_disjoint {α : Type} (l : List (String × α)) :
    ∀ d : List (String × α),
      (∀ x ∈ l.map Prod.fst, x ∉ d.map Prod.fst) →
      (l.map Prod.fst).Nodup → dictMerge d l = d ++ l := by
  induction l with
  | nil => intro d _ _; simp [dictMerge]
  | cons kv rest ih =>
      intro d hdisj hnd
      obtain ⟨k0, v0⟩ := kv
      rw [List.map_cons, List.nodup_cons] at hnd
      have hk0 : k0 ∉ d.map Prod.fst :=
        hdisj k0 (by rw [List.map_cons]; exact List.mem_cons_self _ _)
      have hstep : dictMerge d ((k0, v0) :: rest) =
          dictMerge (dictSet d k0 v0) rest := rfl
      rw [hstep, dictSet_append_of_not_mem d k0 v0 hk0]
      rw [ih (d ++ [(k0, v0)]) ?_ hnd.2]
      · simp
      · intro x hx
        rw [List.map_append]
        simp only [List.mem_append, List.map_cons, List.map_nil,
          List.mem_singleton, not_or]
        constructor
        · exact hdisj x (by rw [List.map_cons]; exact List.mem_cons_of_mem _ hx)
        · intro hc
          rw [hc] at hx
          exact hnd.1 hx

theorem buildDict_eq_self {α : Type} (p : List (String × α))
    (hnd : (p.map Prod.fst).Nodup) : buildDict p = p := by
  unfold buildDict
  rw [dictMerge_append_of_disjoint p [] (by simp) hnd]
  simp

/-- C8: for any GET request descriptor, two explicit param dicts holding the
same key-value pairs in different insertion orders yield the same canonical
request text and the same `signatureText` MD5; for non-GET methods the text
ignores params entirely, so the invariance holds for every method. -/
theorem canonical_text_perm_invariant (method url : String) (d : Option PyVal)
    (p1 p2 : List (String × PyVal)) (hperm : p1.Perm p2)
    (hnd : (p1.map Prod.fst).Nodup) :
    requestTextOf method url p1 d = requestTextOf method url p2 d ∧
    hash_signature_data (requestTextOf method url p1 d) =
      hash_signature_data (requestTextOf method url p2 d) := by
  have hnd2 : (p2.map Prod.fst).Nodup := ((hperm.map Prod.fst).nodup_iff).mp hnd
  have key : requestTextOf method url p1 d = requestTextOf method url p2 d := by
    unfold requestTextOf
    by_cases h : pyUpper method = "GET"
    · rw [if_pos h, if_pos h]
      unfold combinedParams
      rw [buildDict_eq_self p1 hnd, buildDict_eq_self p2 hnd2]
      have hmp : (dictMerge p1 (urlQueryParams url)).Perm
          (dictMerge p2 (urlQueryParams url)) :=
        dictMerge_perm (urlQueryParams url) hperm hnd
      have hmn : ((dictMerge p1 (urlQueryParams url)).map Prod.fst).Nodup :=
        dictMerge_keysNodup (urlQueryParams url) p1 hnd
      unfold stringify_params stringifyFiltered
      rw [sortParams_eq_of_perm _ _ hmp hmn]
    · rw [if_neg h, if_neg h]
  exact ⟨key, by rw [key]⟩

/-- C8 (witness): the two-entry dicts `{"b": "2", "a": "1"}` and
`{"a": "1", "b": "2"}` give identical canonical text and signatureText. -/
theorem canonical_text_perm_invariant_witness :
    ([(("b" : String), PyVal.str "2"), ("a", PyVal.str "1")].Perm
       [("a", PyVal.str "1"), ("b", PyVal.str "2")]) ∧
    (([(("b" : String), PyVal.str "2"), ("a", PyVal.str "1")].map
        Prod.fst).Nodup) ∧
    (requestTextOf "GET" "/p" [("b", PyVal.str "2"), ("a", PyVal.str "1")]
        Option.none =
       requestTextOf "GET" "/p" [("a", PyVal.str "1"), ("b", PyVal.str "2")]
        Option.none ∧
     hash_signature_data (requestTextOf "GET" "/p"
        [("b", PyVal.str "2"), ("a", PyVal.str "1")] Option.none) =
       hash_signature_data (requestTextOf "GET" "/p"
        [("a", PyVal.str "1"), ("b", PyVal.str "2")] Option.none)) :=
  ⟨List.Perm.swap _ _ _, by decide,
   canonical_text_perm_invariant "GET" "/p" Option.none
     [("b", PyVal.str "2"), ("a", PyVal.str "1")]
     [("a", PyVal.str "1"), ("b", PyVal.str "2")]
     (List.Perm.swap _ _ _) (by decide)⟩
